import Mathlib

/-!
Verification of the `core-js-101` exercises: the CSS selector `Builder`
class (with its `cssSelectorBuilder` facade), the `Rectangle` constructor,
and the `getJSON` / `fromJSON` helpers, all from `src/06-objects-tasks.js`.

The JS `Builder` object is embedded as a record; each method becomes a
function from the pre-state to a pair of an optional error (the method
throws) and the post-state.  Returning the post-state also on the error
path mirrors JS semantics, where field assignments executed before a
`throw` survive the throw.  JS truthiness is made explicit: `this.order`
(a number) is truthy iff nonzero, `this.el` / `this.pseudo` (null or
true) are modelled as `Bool`.
-/

set_option autoImplicit false

/-- The two error messages thrown by the builder: `this.error`
(duplicate element / id / pseudo-element) and `this.orderError`
(fragments out of category rank). -/
inductive BuilderError where
  | dupErr
  | orderErr
  deriving DecidableEq, Repr

/-- State of a `Builder` instance: `result` is the accumulated selector
text, `el` / `pseudo` record that an element / pseudo-element fragment
was appended, `order` is the highest category rank recorded so far. -/
structure Builder where
  result : String
  el : Bool
  pseudo : Bool
  order : Nat
  deriving DecidableEq, Repr

/-- `new Builder()`: empty result, no element, no pseudo-element, rank 0. -/
def Builder.new : Builder :=
  { result := "", el := false, pseudo := false, order := 0 }

/-- `element(value)`: throws orderError if `this.order` is truthy, throws
the duplicate error if `this.el` is truthy, else sets `el` and appends
`value` verbatim. -/
def Builder.element (b : Builder) (v : String) : Option BuilderError × Builder :=
  if b.order ≠ 0 then (some .orderErr, b)
  else if b.el then (some .dupErr, b)
  else (none, { b with el := true, result := b.result ++ v })

/-- `id(value)`: throws orderError if `this.order > 1`, throws the
duplicate error if `this.order` is truthy, else sets `order := 1` and
appends `"#" + value`. -/
def Builder.id (b : Builder) (v : String) : Option BuilderError × Builder :=
  if b.order > 1 then (some .orderErr, b)
  else if b.order ≠ 0 then (some .dupErr, b)
  else (none, { b with order := 1, result := b.result ++ ("#" ++ v) })

/-- `class(value)` (named `cls` here since `class` is a Lean keyword):
throws orderError if `this.order > 2`, else sets `order := 2` and
appends `"." + value`. -/
def Builder.cls (b : Builder) (v : String) : Option BuilderError × Builder :=
  if b.order > 2 then (some .orderErr, b)
  else (none, { b with order := 2, result := b.result ++ ("." ++ v) })

/-- `attr(value)`: throws orderError if `this.order > 3`, else sets
`order := 3` and appends `"[" + value + "]"`. -/
def Builder.attr (b : Builder) (v : String) : Option BuilderError × Builder :=
  if b.order > 3 then (some .orderErr, b)
  else (none, { b with order := 3, result := b.result ++ ("[" ++ v ++ "]") })

/-- `pseudoClass(value)`: throws orderError if `this.order > 4`, else
sets `order := 4` and appends `":" + value`. -/
def Builder.pseudoClass (b : Builder) (v : String) : Option BuilderError × Builder :=
  if b.order > 4 then (some .orderErr, b)
  else (none, { b with order := 4, result := b.result ++ (":" ++ v) })

/-- `pseudoElement(value)`: first assigns `this.order = 5`, then throws
the duplicate error if `this.pseudo` is truthy, else sets `pseudo` and
appends `"::" + value`.  The rank assignment precedes the throw, exactly
as in the source. -/
def Builder.pseudoElement (b : Builder) (v : String) : Option BuilderError × Builder :=
  if b.pseudo then (some .dupErr, { b with order := 5 })
  else (none, { b with order := 5, pseudo := true, result := b.result ++ ("::" ++ v) })

/-- `stringify()`: returns `this.result`. -/
def Builder.stringify (b : Builder) : String := b.result

/-- `combine(selector1, combinator, selector2)`: overwrites `this.result`
with the two stringified selectors joined by the combinator, with no
ordering or duplicate check. -/
def Builder.combine (b : Builder) (s1 : Builder) (c : String) (s2 : Builder) : Builder :=
  { b with result := s1.stringify ++ " " ++ c ++ " " ++ s2.stringify }

namespace cssSelectorBuilder

/-- Facade `cssSelectorBuilder.combine`: creates a fresh `Builder` and
calls its `combine`. -/
def combine (s1 : Builder) (c : String) (s2 : Builder) : Builder :=
  Builder.new.combine s1 c s2

end cssSelectorBuilder

/-- A selector fragment together with its value, one constructor per
category (element, id, class, attribute, pseudo-class, pseudo-element). -/
inductive Frag where
  | elem (v : String)
  | id (v : String)
  | cls (v : String)
  | attr (v : String)
  | pcls (v : String)
  | pelem (v : String)
  deriving DecidableEq, Repr

/-- Category rank of a fragment: element 0, id 1, class 2, attribute 3,
pseudo-class 4, pseudo-element 5. -/
def Frag.rank : Frag → Nat
  | .elem _ => 0
  | .id _ => 1
  | .cls _ => 2
  | .attr _ => 3
  | .pcls _ => 4
  | .pelem _ => 5

/-- The text a fragment contributes to the selector string. -/
def Frag.text : Frag → String
  | .elem v => v
  | .id v => "#" ++ v
  | .cls v => "." ++ v
  | .attr v => "[" ++ v ++ "]"
  | .pcls v => ":" ++ v
  | .pelem v => "::" ++ v

/-- Dispatch a fragment to the corresponding `Builder` method. -/
def Builder.apply (b : Builder) : Frag → Option BuilderError × Builder
  | .elem v => b.element v
  | .id v => b.id v
  | .cls v => b.cls v
  | .attr v => b.attr v
  | .pcls v => b.pseudoClass v
  | .pelem v => b.pseudoElement v

/-- Run a chain of fragment-appending calls; the chain stops at the
first thrown error, as a JS method chain would. -/
def runFrags (b : Builder) : List Frag → Except BuilderError Builder
  | [] => .ok b
  | f :: fs =>
    match b.apply f with
    | (some e, _) => .error e
    | (none, b1) => runFrags b1 fs

/-- Concatenation of the fragments' texts, in order, with no separator. -/
def textConcat : List Frag → String
  | [] => ""
  | f :: fs => f.text ++ textConcat fs

/-- The builder states the program can actually produce: the fresh
builder, any post-state of a method call (also the post-state at the
moment a call throws), and any `combine` result. -/
inductive Reachable : Builder → Prop where
  | new : Reachable Builder.new
  | step (b : Builder) (f : Frag) : Reachable b → Reachable (b.apply f).2
  | comb (b s1 s2 : Builder) (c : String) : Reachable b → Reachable (b.combine s1 c s2)

/-- `Rectangle` instances: a `width` and a `height` field. -/
structure RectObj (α : Type) where
  width : α
  height : α

/-- `new Rectangle(x, y)`: sets `width := x`, `height := y`. -/
def Rectangle {α : Type} (x y : α) : RectObj α :=
  { width := x, height := y }

/-- `getArea()`: returns `this.width * this.height`. -/
def RectObj.getArea {α : Type} [Mul α] (r : RectObj α) : α :=
  r.width * r.height

/-- JS property assignment `r[k] = v` on a plain object whose own
properties are the association list `props` (insertion order): overwrite
in place if the key exists, else append. -/
def setProp {V : Type} (props : List (String × V)) (k : String) (v : V) :
    List (String × V) :=
  if props.any (fun p => p.1 = k) then
    props.map (fun p => if p.1 = k then (k, v) else p)
  else props ++ [(k, v)]

/-- `getJSON(x)`: returns `JSON.stringify(x)`.  The platform serializer
is a parameter `sf`; the source adds nothing around it. -/
def getJSON {V : Type} (sf : List (String × V) → String)
    (x : List (String × V)) : String :=
  sf x

/-- `fromJSON(x, y)`: `Object.create(x)`, then copy every key of
`JSON.parse(y)` onto the fresh object in key order.  The platform parser
is a parameter `pf`; the result is the pair of the prototype and the own
properties of the rebuilt object. -/
def fromJSON {P V : Type} (pf : String → List (String × V))
    (x : P) (y : String) : P × List (String × V) :=
  ((x, (pf y).foldl (fun r kv => setProp r kv.1 kv.2) []))

/-- A fragment list in a valid category ordering: at most one element,
then at most one id, then any number of classes, then attributes, then
pseudo-classes, then at most one pseudo-element. -/
def validShape (l : List Frag) : Prop :=
  ∃ (e i pe cs ats ps : List String),
    e.length ≤ 1 ∧ i.length ≤ 1 ∧ pe.length ≤ 1 ∧
    l = e.map Frag.elem ++ (i.map Frag.id ++ (cs.map Frag.cls ++
      (ats.map Frag.attr ++ (ps.map Frag.pcls ++ pe.map Frag.pelem))))

/-- A heap of builder objects, to speak about which objects a call
writes: `combineAt σ i j c k` runs `σ[i].combine(σ[j], c, σ[k])`, whose
body assigns only to the receiver `σ[i]`. -/
def combineAt (σ : List Builder) (i j k : Nat) (c : String) : List Builder :=
  match σ[i]?, σ[j]?, σ[k]? with
  | some b, some l, some r => σ.set i (b.combine l c r)
  | _, _, _ => σ

/-! ### Theorems -/

/-- Every program-producible builder has `order ≤ 5`, and once a
pseudo-element is present the recorded rank is exactly 5 (the only
assignment to `pseudo` writes `order = 5` first, and no call lowers
`order`). -/
theorem builder_inv {b : Builder} (h : Reachable b) :
    b.order ≤ 5 ∧ (b.pseudo = true → b.order = 5) := by
  induction h with
  | new => exact ⟨by decide, by intro h; cases h⟩
  | step b f _ ih =>
    obtain ⟨h5, hp⟩ := ih
    cases f with
    | elem v =>
      by_cases h1 : b.order ≠ 0
      · simpa [Builder.apply, Builder.element, h1] using ⟨h5, hp⟩
      · by_cases h2 : b.el
        · simpa [Builder.apply, Builder.element, h1, h2] using ⟨h5, hp⟩
        · simpa [Builder.apply, Builder.element, h1, h2] using ⟨h5, hp⟩
    | id v =>
      by_cases h1 : b.order > 1
      · simpa [Builder.apply, Builder.id, h1] using ⟨h5, hp⟩
      · by_cases h2 : b.order ≠ 0
        · simpa [Builder.apply, Builder.id, h1, h2] using ⟨h5, hp⟩
        · have hps : b.pseudo = false := by
            by_contra hc
            have := hp (by simpa using hc)
            omega
          simp [Builder.apply, Builder.id, h1, h2, hps]
    | cls v =>
      by_cases h1 : b.order > 2
      · simpa [Builder.apply, Builder.cls, h1] using ⟨h5, hp⟩
      · have hps : b.pseudo = false := by
          by_contra hc
          have := hp (by simpa using hc)
          omega
        simp [Builder.apply, Builder.cls, h1, hps]
    | attr v =>
      by_cases h1 : b.order > 3
      · simpa [Builder.apply, Builder.attr, h1] using ⟨h5, hp⟩
      · have hps : b.pseudo = false := by
          by_contra hc
          have := hp (by simpa using hc)
          omega
        simp [Builder.apply, Builder.attr, h1, hps]
    | pcls v =>
      by_cases h1 : b.order > 4
      · simpa [Builder.apply, Builder.pseudoClass, h1] using ⟨h5, hp⟩
      · have hps : b.pseudo = false := by
          by_contra hc
          have := hp (by simpa using hc)
          omega
        simp [Builder.apply, Builder.pseudoClass, h1, hps]
    | pelem v =>
      by_cases h1 : b.pseudo
      · simp [Builder.apply, Builder.pseudoElement, h1]
      · simp [Builder.apply, Builder.pseudoElement, h1]
  | comb b s1 s2 c _ ih => exact ih

/-- C9: `new Rectangle(w, h)` has `width = w`, `height = h`, and
`getArea()` returns `w * h`. -/
theorem rectangle_spec {α : Type} [Mul α] (w h : α) :
    (Rectangle w h).width = w ∧ (Rectangle w h).height = h ∧
      (Rectangle w h).getArea = w * h :=
  ⟨rfl, rfl, rfl⟩

/-- C8: `stringify()` just reads the accumulated text (so it changes no
field and repeated calls agree), and on a fresh builder it returns `""`. -/
theorem stringify_pure :
    (∀ b : Builder, b.stringify = b.result) ∧ Builder.new.stringify = "" :=
  ⟨fun _ => rfl, rfl⟩

/-- C4: the facade `combine` succeeds on any two builders and any
combinator, its `stringify` is exactly `left.stringify + " " + combinator
+ " " + right.stringify`, and nesting composes left-to-right. -/
theorem combine_stringify_spec (l r d : Builder) (c c2 : String) :
    (cssSelectorBuilder.combine l c r).stringify
        = l.stringify ++ " " ++ c ++ " " ++ r.stringify ∧
      (cssSelectorBuilder.combine (cssSelectorBuilder.combine l c r) c2 d).stringify
        = (l.stringify ++ " " ++ c ++ " " ++ r.stringify) ++ " " ++ c2 ++ " " ++ d.stringify :=
  ⟨rfl, rfl⟩

/-- C5: on a builder that already holds a pseudo-element, a second
`pseudoElement(value)` call throws the duplicate error, and its
post-state is the pre-state with `order` set to 5 (the assignment runs
before the throw). -/
theorem pseudoElement_dup_sets_rank (b : Builder) (v : String)
    (h : b.pseudo = true) :
    (b.pseudoElement v).1 = some BuilderError.dupErr ∧
      (b.pseudoElement v).2 = { b with order := 5 } := by
  cases b with
  | mk res e p o =>
    subst h
    exact ⟨rfl, rfl⟩

theorem pseudoElement_dup_sets_rank_witness :
    (Builder.pseudoElement ⟨"::after", false, true, 3⟩ "before").1
        = some BuilderError.dupErr ∧
      (Builder.pseudoElement ⟨"::after", false, true, 3⟩ "before").2
        = ⟨"::after", false, true, 5⟩ :=
  pseudoElement_dup_sets_rank ⟨"::after", false, true, 3⟩ "before" rfl

/-- C2: on any program-producible builder, a fragment call whose
category rank is strictly below the recorded `order` throws the order
error. -/
theorem lower_rank_rejected (b : Builder) (f : Frag) (hr : Reachable b)
    (hlt : f.rank < b.order) : (b.apply f).1 = some BuilderError.orderErr := by
  obtain ⟨h5, _⟩ := builder_inv hr
  cases f with
  | elem v =>
    have h1 : b.order ≠ 0 := by simp [Frag.rank] at hlt; omega
    simp [Builder.apply, Builder.element, h1]
  | id v =>
    have h1 : b.order > 1 := by simpa [Frag.rank] using hlt
    simp [Builder.apply, Builder.id, h1]
  | cls v =>
    have h1 : b.order > 2 := by simpa [Frag.rank] using hlt
    simp [Builder.apply, Builder.cls, h1]
  | attr v =>
    have h1 : b.order > 3 := by simpa [Frag.rank] using hlt
    simp [Builder.apply, Builder.attr, h1]
  | pcls v =>
    have h1 : b.order > 4 := by simpa [Frag.rank] using hlt
    simp [Builder.apply, Builder.pseudoClass, h1]
  | pelem v =>
    exact absurd hlt (by simp [Frag.rank]; omega)

theorem lower_rank_rejected_witness :
    ((Builder.new.apply (Frag.cls "container")).2.apply (Frag.id "main")).1
      = some BuilderError.orderErr :=
  lower_rank_rejected (Builder.new.apply (Frag.cls "container")).2 (Frag.id "main")
    (Reachable.step Builder.new (Frag.cls "container") Reachable.new) (by decide)

/-- C6: on any program-producible builder, a fragment call that throws
leaves the builder exactly as it was: the five methods with checks
validate before mutating, and the one assignment `pseudoElement` makes
before its throw (`order = 5`) is the value `order` already has whenever
that throw can fire. -/
theorem failed_call_preserves_state (b : Builder) (f : Frag) (hr : Reachable b)
    (hf : ((b.apply f).1).isSome) : (b.apply f).2 = b := by
  obtain ⟨h5, hp⟩ := builder_inv hr
  cases f with
  | elem v =>
    by_cases h1 : b.order ≠ 0
    · simp [Builder.apply, Builder.element, h1]
    · by_cases h2 : b.el
      · simp [Builder.apply, Builder.element, h1, h2]
      · simp [Builder.apply, Builder.element, h1, h2] at hf
  | id v =>
    by_cases h1 : b.order > 1
    · simp [Builder.apply, Builder.id, h1]
    · by_cases h2 : b.order ≠ 0
      · simp [Builder.apply, Builder.id, h1, h2]
      · simp [Builder.apply, Builder.id, h1, h2] at hf
  | cls v =>
    by_cases h1 : b.order > 2
    · simp [Builder.apply, Builder.cls, h1]
    · simp [Builder.apply, Builder.cls, h1] at hf
  | attr v =>
    by_cases h1 : b.order > 3
    · simp [Builder.apply, Builder.attr, h1]
    · simp [Builder.apply, Builder.attr, h1] at hf
  | pcls v =>
    by_cases h1 : b.order > 4
    · simp [Builder.apply, Builder.pseudoClass, h1]
    · simp [Builder.apply, Builder.pseudoClass, h1] at hf
  | pelem v =>
    by_cases h1 : b.pseudo
    · have ho : b.order = 5 := hp h1
      cases b with
      | mk res e p o =>
        simp only [Builder.apply, Builder.pseudoElement] at *
        subst ho
        simp [h1]
    · simp [Builder.apply, Builder.pseudoElement, h1] at hf

theorem failed_call_preserves_state_witness :
    (((Builder.new.apply (Frag.pelem "after")).2.apply (Frag.pelem "before")).2
        = (Builder.new.apply (Frag.pelem "after")).2) ∧
      (((Builder.new.apply (Frag.cls "a")).2.apply (Frag.id "b")).2
        = (Builder.new.apply (Frag.cls "a")).2) :=
  ⟨failed_call_preserves_state (Builder.new.apply (Frag.pelem "after")).2
      (Frag.pelem "before")
      (Reachable.step Builder.new (Frag.pelem "after") Reachable.new) (by decide),
    failed_call_preserves_state (Builder.new.apply (Frag.cls "a")).2
      (Frag.id "b")
      (Reachable.step Builder.new (Frag.cls "a") Reachable.new) (by decide)⟩

/-- A successful fragment call never invalidates "an id-or-later rank is
recorded", "an element is present", or "a pseudo-element is present". -/
theorem apply_succ_mono {b b1 : Builder} {f : Frag}
    (h : b.apply f = (none, b1)) :
    (1 ≤ b.order → 1 ≤ b1.order) ∧ (b.el = true → b1.el = true) ∧
      (b.pseudo = true → b1.pseudo = true) := by
  cases f with
  | elem v =>
    simp only [Builder.apply, Builder.element] at h
    split at h
    · exact absurd h (by simp)
    · split at h
      · exact absurd h (by simp)
      · rename_i h1 h2
        injection h with _ h3
        subst h3
        exact ⟨fun hle => by simp at h1; omega, fun _ => rfl, fun hp => hp⟩
  | id v =>
    simp only [Builder.apply, Builder.id] at h
    split at h
    · exact absurd h (by simp)
    · split at h
      · exact absurd h (by simp)
      · injection h with _ h3
        subst h3
        exact ⟨fun _ => Nat.le_refl 1, fun he => he, fun hp => hp⟩
  | cls v =>
    simp only [Builder.apply, Builder.cls] at h
    split at h
    · exact absurd h (by simp)
    · injection h with _ h3
      subst h3
      exact ⟨fun _ => (by decide : (1:Nat) ≤ 2), fun he => he, fun hp => hp⟩
  | attr v =>
    simp only [Builder.apply, Builder.attr] at h
    split at h
    · exact absurd h (by simp)
    · injection h with _ h3
      subst h3
      exact ⟨fun _ => (by decide : (1:Nat) ≤ 3), fun he => he, fun hp => hp⟩
  | pcls v =>
    simp only [Builder.apply, Builder.pseudoClass] at h
    split at h
    · exact absurd h (by simp)
    · injection h with _ h3
      subst h3
      exact ⟨fun _ => (by decide : (1:Nat) ≤ 4), fun he => he, fun hp => hp⟩
  | pelem v =>
    simp only [Builder.apply, Builder.pseudoElement] at h
    split at h
    · exact absurd h (by simp)
    · injection h with _ h3
      subst h3
      exact ⟨fun _ => (by decide : (1:Nat) ≤ 5), fun he => he, fun _ => rfl⟩

/-- A successful `element` call records the element flag. -/
theorem apply_elem_sets {b b1 : Builder} {w : String}
    (h : b.apply (Frag.elem w) = (none, b1)) : b1.el = true := by
  simp only [Builder.apply, Builder.element] at h
  split at h
  · exact absurd h (by simp)
  · split at h
    · exact absurd h (by simp)
    · injection h with _ h3
      subst h3
      rfl

/-- A successful `id` call records rank 1. -/
theorem apply_id_sets {b b1 : Builder} {w : String}
    (h : b.apply (Frag.id w) = (none, b1)) : 1 ≤ b1.order := by
  simp only [Builder.apply, Builder.id] at h
  split at h
  · exact absurd h (by simp)
  · split at h
    · exact absurd h (by simp)
    · injection h with _ h3
      subst h3
      exact Nat.le_refl 1

/-- A successful `pseudoElement` call records the pseudo-element flag. -/
theorem apply_pelem_sets {b b1 : Builder} {w : String}
    (h : b.apply (Frag.pelem w) = (none, b1)) : b1.pseudo = true := by
  simp only [Builder.apply, Builder.pseudoElement] at h
  split at h
  · exact absurd h (by simp)
  · injection h with _ h3
    subst h3
    rfl

/-- Facts accumulated by a successful chain: the three "present" marks
are monotone, and a fragment present in the chain leaves its mark on the
final state. -/
theorem run_facts (l : List Frag) : ∀ b b', runFrags b l = .ok b' →
    (1 ≤ b.order → 1 ≤ b'.order) ∧ (b.el = true → b'.el = true) ∧
      (b.pseudo = true → b'.pseudo = true) ∧
      (∀ w, Frag.elem w ∈ l → b'.el = true) ∧
      (∀ w, Frag.id w ∈ l → 1 ≤ b'.order) ∧
      (∀ w, Frag.pelem w ∈ l → b'.pseudo = true) := by
  induction l with
  | nil =>
    intro b b' h
    simp only [runFrags] at h
    injection h with h1
    subst h1
    exact ⟨fun h => h, fun h => h, fun h => h,
      fun w hw => absurd hw (List.not_mem_nil _),
      fun w hw => absurd hw (List.not_mem_nil _),
      fun w hw => absurd hw (List.not_mem_nil _)⟩
  | cons f fs ih =>
    intro b b' h
    simp only [runFrags] at h
    split at h
    · exact absurd h (by simp)
    · rename_i b1 heq
      obtain ⟨iho, ihe, ihp, ihme, ihmi, ihmp⟩ := ih b1 b' h
      obtain ⟨mo, me, mp⟩ := apply_succ_mono heq
      refine ⟨fun h0 => iho (mo h0), fun h0 => ihe (me h0), fun h0 => ihp (mp h0),
        ?_, ?_, ?_⟩
      · intro w hw
        rcases List.mem_cons.mp hw with hw | hw
        · subst hw
          exact ihe (apply_elem_sets heq)
        · exact ihme w hw
      · intro w hw
        rcases List.mem_cons.mp hw with hw | hw
        · subst hw
          exact iho (apply_id_sets heq)
        · exact ihmi w hw
      · intro w hw
        rcases List.mem_cons.mp hw with hw | hw
        · subst hw
          exact ihp (apply_pelem_sets heq)
        · exact ihmp w hw

/-- C3 counterexample: on a builder holding `element("a")` followed by
`class("c")` — so an element has already been appended — a second
`element` call throws the order error, not the duplicate error. -/
theorem duplicate_rejected_cex :
    (Builder.new.element "a").1 = none ∧
      ((Builder.new.element "a").2.cls "c").1 = none ∧
      ((Builder.new.element "a").2.cls "c").2.el = true ∧
      (((Builder.new.element "a").2.cls "c").2.element "d").1
        = some BuilderError.orderErr ∧
      (((Builder.new.element "a").2.cls "c").2.element "d").1
        ≠ some BuilderError.dupErr := by
  decide

/-- C3 amended: after a successful chain from a fresh builder, a second
element / id / pseudo-element call always fails, but the error depends
on the rank recorded meanwhile: a repeated element throws the duplicate
error when `order` is still 0 and the order error otherwise; a repeated
id throws the order error when `order > 1` and the duplicate error
otherwise; a repeated pseudo-element always throws the duplicate
error. -/
theorem duplicate_rejected_amended (l : List Frag) (b : Builder) (v : String)
    (h : runFrags Builder.new l = .ok b) :
    ((∃ w, Frag.elem w ∈ l) → (b.element v).1
        = some (if b.order = 0 then BuilderError.dupErr else BuilderError.orderErr)) ∧
      ((∃ w, Frag.id w ∈ l) → (b.id v).1
        = some (if b.order > 1 then BuilderError.orderErr else BuilderError.dupErr)) ∧
      ((∃ w, Frag.pelem w ∈ l) → (b.pseudoElement v).1 = some BuilderError.dupErr) := by
  obtain ⟨-, -, -, hme, hmi, hmp⟩ := run_facts l Builder.new b h
  refine ⟨?_, ?_, ?_⟩
  · rintro ⟨w, hw⟩
    have hel : b.el = true := hme w hw
    by_cases h0 : b.order = 0
    · simp [Builder.element, h0, hel]
    · simp [Builder.element, h0]
  · rintro ⟨w, hw⟩
    have h1 : 1 ≤ b.order := hmi w hw
    by_cases hgt : b.order > 1
    · simp [Builder.id, hgt]
    · have h0 : b.order = 1 := by omega
      simp [Builder.id, hgt, h0]
  · rintro ⟨w, hw⟩
    have hp : b.pseudo = true := hmp w hw
    simp [Builder.pseudoElement, hp]

theorem duplicate_rejected_amended_witness :
    ((Builder.mk "#main" false false 1).id "second").1
      = some BuilderError.dupErr := by
  have h := (duplicate_rejected_amended [Frag.id "main"]
    (Builder.mk "#main" false false 1) "second" rfl).2.1 ⟨"main", by decide⟩
  simpa using h

theorem textConcat_append (l1 l2 : List Frag) :
    textConcat (l1 ++ l2) = textConcat l1 ++ textConcat l2 := by
  induction l1 with
  | nil => simp [textConcat]
  | cons f fs ih => simp [textConcat, ih, String.append_assoc]

theorem runFrags_append (l1 l2 : List Frag) : ∀ b b',
    runFrags b l1 = .ok b' → runFrags b (l1 ++ l2) = runFrags b' l2 := by
  induction l1 with
  | nil =>
    intro b b' h
    simp only [runFrags] at h
    injection h with h1
    subst h1
    rfl
  | cons f fs ih =>
    intro b b' h
    simp only [runFrags, List.cons_append] at h ⊢
    split at h
    · exact absurd h (by simp)
    · rename_i b1 heq
      exact ih b1 b' h

/-- Running the (at most one) element fragment from a rank-0,
element-free builder succeeds and appends its text. -/
theorem run_elem_seg (e : List String) (he : e.length ≤ 1) (b : Builder)
    (h0 : b.order = 0) (hel : b.el = false) :
    ∃ b', runFrags b (e.map Frag.elem) = .ok b' ∧
      b'.result = b.result ++ textConcat (e.map Frag.elem) ∧
      b'.pseudo = b.pseudo ∧ b'.order = 0 := by
  rcases e with _ | ⟨v, e2⟩
  · exact ⟨b, rfl, (String.append_empty _).symm, rfl, h0⟩
  · rcases e2 with _ | ⟨w, e3⟩
    · refine ⟨{ b with el := true, result := b.result ++ v }, ?_, ?_, rfl, h0⟩
      · simp [runFrags, Builder.apply, Builder.element, h0, hel]
      · simp [textConcat, Frag.text]
    · simp at he

/-- Running the (at most one) id fragment from a rank-0 builder succeeds,
appends `#value`, and leaves the rank at most 1. -/
theorem run_id_seg (i : List String) (hi : i.length ≤ 1) (b : Builder)
    (h0 : b.order = 0) :
    ∃ b', runFrags b (i.map Frag.id) = .ok b' ∧
      b'.result = b.result ++ textConcat (i.map Frag.id) ∧
      b'.el = b.el ∧ b'.pseudo = b.pseudo ∧ b'.order ≤ 1 := by
  rcases i with _ | ⟨v, i2⟩
  · exact ⟨b, rfl, (String.append_empty _).symm, rfl, rfl, by omega⟩
  · rcases i2 with _ | ⟨w, i3⟩
    · refine ⟨{ b with order := 1, result := b.result ++ ("#" ++ v) }, ?_, ?_,
        rfl, rfl, Nat.le_refl 1⟩
      · simp [runFrags, Builder.apply, Builder.id, h0]
      · simp [textConcat, Frag.text]
    · simp at hi

/-- Running any number of class fragments from a rank-at-most-2 builder
succeeds and appends each `.value` in order. -/
theorem run_cls_seg (cs : List String) : ∀ b : Builder, b.order ≤ 2 →
    ∃ b', runFrags b (cs.map Frag.cls) = .ok b' ∧
      b'.result = b.result ++ textConcat (cs.map Frag.cls) ∧
      b'.el = b.el ∧ b'.pseudo = b.pseudo ∧ b'.order ≤ 2 := by
  induction cs with
  | nil =>
    intro b hb
    exact ⟨b, rfl, (String.append_empty _).symm, rfl, rfl, hb⟩
  | cons v vs ih =>
    intro b hb
    have hgt : ¬ b.order > 2 := by omega
    obtain ⟨b', hrun, hres, hel, hps, hord⟩ :=
      ih { b with order := 2, result := b.result ++ ("." ++ v) } (Nat.le_refl 2)
    refine ⟨b', ?_, ?_, hel, hps, hord⟩
    · simp only [List.map_cons, runFrags, Builder.apply, Builder.cls, if_neg hgt]
      exact hrun
    · rw [hres]
      simp [textConcat, Frag.text, String.append_assoc]

/-- Running any number of attribute fragments from a rank-at-most-3
builder succeeds and appends each `[value]` in order. -/
theorem run_attr_seg (ats : List String) : ∀ b : Builder, b.order ≤ 3 →
    ∃ b', runFrags b (ats.map Frag.attr) = .ok b' ∧
      b'.result = b.result ++ textConcat (ats.map Frag.attr) ∧
      b'.el = b.el ∧ b'.pseudo = b.pseudo ∧ b'.order ≤ 3 := by
  induction ats with
  | nil =>
    intro b hb
    exact ⟨b, rfl, (String.append_empty _).symm, rfl, rfl, hb⟩
  | cons v vs ih =>
    intro b hb
    have hgt : ¬ b.order > 3 := by omega
    obtain ⟨b', hrun, hres, hel, hps, hord⟩ :=
      ih { b with order := 3, result := b.result ++ ("[" ++ v ++ "]") } (Nat.le_refl 3)
    refine ⟨b', ?_, ?_, hel, hps, hord⟩
    · simp only [List.map_cons, runFrags, Builder.apply, Builder.attr, if_neg hgt]
      exact hrun
    · rw [hres]
      simp [textConcat, Frag.text, String.append_assoc]

/-- Running any number of pseudo-class fragments from a rank-at-most-4
builder succeeds and appends each `:value` in order. -/
theorem run_pcls_seg (ps : List String) : ∀ b : Builder, b.order ≤ 4 →
    ∃ b', runFrags b (ps.map Frag.pcls) = .ok b' ∧
      b'.result = b.result ++ textConcat (ps.map Frag.pcls) ∧
      b'.el = b.el ∧ b'.pseudo = b.pseudo ∧ b'.order ≤ 4 := by
  induction ps with
  | nil =>
    intro b hb
    exact ⟨b, rfl, (String.append_empty _).symm, rfl, rfl, hb⟩
  | cons v vs ih =>
    intro b hb
    have hgt : ¬ b.order > 4 := by omega
    obtain ⟨b', hrun, hres, hel, hps, hord⟩ :=
      ih { b with order := 4, result := b.result ++ (":" ++ v) } (Nat.le_refl 4)
    refine ⟨b', ?_, ?_, hel, hps, hord⟩
    · simp only [List.map_cons, runFrags, Builder.apply, Builder.pseudoClass, if_neg hgt]
      exact hrun
    · rw [hres]
      simp [textConcat, Frag.text, String.append_assoc]

/-- Running the (at most one) pseudo-element fragment from a builder with
no pseudo-element yet succeeds and appends `::value`. -/
theorem run_pelem_seg (pe : List String) (hpe : pe.length ≤ 1) (b : Builder)
    (hps : b.pseudo = false) :
    ∃ b', runFrags b (pe.map Frag.pelem) = .ok b' ∧
      b'.result = b.result ++ textConcat (pe.map Frag.pelem) := by
  rcases pe with _ | ⟨v, p2⟩
  · exact ⟨b, rfl, (String.append_empty _).symm⟩
  · rcases p2 with _ | ⟨w, p3⟩
    · refine ⟨{ b with order := 5, pseudo := true, result := b.result ++ ("::" ++ v) }, ?_, ?_⟩
      · simp [runFrags, Builder.apply, Builder.pseudoElement, hps]
      · simp [textConcat, Frag.text]
    · simp at hpe

/-- C1: chaining the builder methods along any fragment list in a valid
category ordering succeeds, and `stringify()` then returns the fragments'
texts concatenated in call order with no separators (element verbatim,
then `#id`, `.class`es, `[attribute]`s, `:pseudo-class`es,
`::pseudo-element`). -/
theorem valid_chain_stringify (l : List Frag) (h : validShape l) :
    ∃ b, runFrags Builder.new l = .ok b ∧ b.stringify = textConcat l := by
  obtain ⟨e, i, pe, cs, ats, ps, he, hi, hpe, rfl⟩ := h
  obtain ⟨b1, r1, s1, p1, o1⟩ := run_elem_seg e he Builder.new rfl rfl
  obtain ⟨b2, r2, s2, e2, p2, o2⟩ := run_id_seg i hi b1 o1
  obtain ⟨b3, r3, s3, e3, p3, o3⟩ := run_cls_seg cs b2 (by omega)
  obtain ⟨b4, r4, s4, e4, p4, o4⟩ := run_attr_seg ats b3 (by omega)
  obtain ⟨b5, r5, s5, e5, p5, o5⟩ := run_pcls_seg ps b4 (by omega)
  have hps5 : b5.pseudo = false := by
    rw [p5, p4, p3, p2, p1]
    rfl
  obtain ⟨b6, r6, s6⟩ := run_pelem_seg pe hpe b5 hps5
  refine ⟨b6, ?_, ?_⟩
  · rw [runFrags_append _ _ _ _ r1, runFrags_append _ _ _ _ r2,
      runFrags_append _ _ _ _ r3, runFrags_append _ _ _ _ r4,
      runFrags_append _ _ _ _ r5]
    exact r6
  · show b6.result = _
    rw [s6, s5, s4, s3, s2, s1]
    simp [textConcat_append, String.append_assoc, Builder.new]

theorem valid_chain_stringify_witness :
    ∃ b, runFrags Builder.new
        [Frag.elem "a", Frag.id "m", Frag.cls "c1", Frag.cls "c2",
          Frag.attr "x", Frag.pcls "p", Frag.pelem "q"] = .ok b ∧
      b.stringify = textConcat
        [Frag.elem "a", Frag.id "m", Frag.cls "c1", Frag.cls "c2",
          Frag.attr "x", Frag.pcls "p", Frag.pelem "q"] :=
  valid_chain_stringify _
    ⟨["a"], ["m"], ["q"], ["c1", "c2"], ["x"], ["p"],
      by decide, by decide, by decide, rfl⟩

/-- C7: `combine` reads the two passed-in builders only through their
finalized string — builders with equal `stringify()` are
interchangeable — and, run on a heap of builder objects, it rewrites
only the receiver's cell, leaving every field of the two argument
builders (and all other objects) untouched. -/
theorem combine_reads_only_stringify :
    (∀ (b l l2 r r2 : Builder) (c : String),
        l.stringify = l2.stringify → r.stringify = r2.stringify →
        b.combine l c r = b.combine l2 c r2) ∧
      (∀ (σ : List Builder) (i j k m : Nat) (c : String), m ≠ i →
        (combineAt σ i j k c)[m]? = σ[m]?) := by
  constructor
  · intro b l l2 r r2 c h1 h2
    simp [Builder.combine, h1, h2]
  · intro σ i j k m c hm
    unfold combineAt
    split
    · exact List.getElem?_set_ne (Ne.symm hm)
    · rfl

theorem combine_reads_only_stringify_witness :
    (Builder.new.combine ⟨"a", true, false, 0⟩ "+" ⟨"b", false, false, 2⟩
        = Builder.new.combine ⟨"a", false, true, 5⟩ "+" ⟨"b", false, false, 4⟩) ∧
      (combineAt [Builder.new, ⟨"a", true, false, 0⟩, ⟨"b", false, false, 2⟩]
          0 1 2 "+")[1]?
        = ([Builder.new, ⟨"a", true, false, 0⟩, ⟨"b", false, false, 2⟩] :
            List Builder)[1]? :=
  ⟨combine_reads_only_stringify.1 _ _ _ _ _ "+" rfl rfl,
    combine_reads_only_stringify.2 _ 0 1 2 1 "+" (by decide)⟩

/-- Copying an association list with no repeated keys onto an empty
object by repeated property assignment reproduces it exactly. -/
theorem foldl_setProp {V : Type} (l : List (String × V)) :
    ∀ acc : List (String × V), (l.map Prod.fst).Nodup →
      (∀ p ∈ acc, ∀ q ∈ l, p.1 ≠ q.1) →
      l.foldl (fun r kv => setProp r kv.1 kv.2) acc = acc ++ l := by
  induction l with
  | nil =>
    intro acc _ _
    simp
  | cons kv l ih =>
    intro acc hnd hdisj
    obtain ⟨k, v⟩ := kv
    have hnotin : ¬ (acc.any (fun p => p.1 = k) = true) := by
      intro hc
      simp only [List.any_eq_true, decide_eq_true_eq] at hc
      obtain ⟨p, hp, hpk⟩ := hc
      exact hdisj p hp (k, v) (List.mem_cons_self _ _) hpk
    have hstep : setProp acc k v = acc ++ [(k, v)] := by
      rw [setProp, if_neg hnotin]
    have hnd2 : (l.map Prod.fst).Nodup := List.Nodup.of_cons hnd
    have hnotmem : k ∉ l.map Prod.fst := (List.nodup_cons.mp hnd).1
    simp only [List.foldl_cons, hstep]
    rw [ih (acc ++ [(k, v)]) hnd2 ?_]
    · simp
    · intro p hp q hq
      rcases List.mem_append.mp hp with hp | hp
      · exact hdisj p hp q (List.mem_cons_of_mem _ hq)
      · have hpk : p = (k, v) := by simpa using hp
        subst hpk
        intro he
        apply hnotmem
        rw [show k = q.1 from he]
        exact List.mem_map_of_mem Prod.fst hq

/-- C10: for any prototype and any plain object with distinct keys,
serializing with `getJSON` and rebuilding with `fromJSON` yields an
object whose prototype is the given one and whose own key/value pairs
are those of the original, provided the platform pair
`JSON.parse` / `JSON.stringify` (the parameters `pf` / `sf`) inverts on
that object. -/
theorem json_round_trip {P V : Type} (proto : P) (obj : List (String × V))
    (sf : List (String × V) → String) (pf : String → List (String × V))
    (hround : pf (sf obj) = obj) (hnd : (obj.map Prod.fst).Nodup) :
    fromJSON pf proto (getJSON sf obj) = (proto, obj) := by
  unfold fromJSON getJSON
  rw [hround]
  rw [foldl_setProp obj [] hnd (fun p hp => absurd hp (List.not_mem_nil p))]
  simp

theorem json_round_trip_witness :
    fromJSON (fun _ => [("a", 1), ("b", 2)]) (0 : Nat)
        (getJSON (fun _ => "json") [("a", (1 : Nat)), ("b", 2)])
      = (0, [("a", 1), ("b", 2)]) :=
  json_round_trip 0 [("a", 1), ("b", 2)] (fun _ => "json")
    (fun _ => [("a", 1), ("b", 2)]) rfl (by decide)
